import Mathlib

/-!
Verification of the QR-code generation pipeline in
src/generate_qr_code.py (function generate_qr_code_for_link).

The Python code is shallowly embedded below.  Rasters are modelled as a
structure of dimensions plus a pixel function; machine floats are modelled
as exact rationals (the constants involved, 1.05 and the CLI logo_size,
are decimal literals whose float rounding error is far below the 1/20
granularity of the integer comparisons they feed for any realistic image
dimension); Python int() truncation and // floor-division are modelled
explicitly; fallible steps return Except/Option.

Behaviour of the two external libraries at the exact call sites used by
the source is embedded from the libraries themselves:
  * PIL Image.thumbnail (Pillow >= 9.1, as the source uses
    Image.Resampling.LANCZOS): the size computation with its
    aspect-ratio rounding, the no-upscale early return, and the
    ZeroDivisionError it raises when the requested size is (0, 0);
    the resampling filter itself is abstracted, since every claim
    under verification concerns geometry, not resampled pixel values.
  * qrcode.QRCode.__init__ parameter validation (_check_box_size,
    _check_border, _check_version), which raises ValueError - the
    spec's ConfigurationError - before any image work happens.
The QR module-matrix rendering itself is out of scope per spec section 1
and is abstracted as a deterministic encoder function parameter.
-/

/-- One RGBA pixel; channels 0..255. -/
structure Pixel where
  r : Nat
  g : Nat
  b : Nat
  a : Nat
deriving DecidableEq

/-- A raster image: fixed dimensions plus a pixel lookup. -/
structure Image where
  width : Nat
  height : Nat
  pix : Nat → Nat → Pixel

/-- Python int(q): truncation toward zero of a real value. -/
def pyInt (q : ℚ) : Int :=
  if 0 ≤ q then ⌊q⌋ else ⌈q⌉

/-- Python integer floor division a // b (for b > 0 it floors). -/
def pyFloorDiv (a b : Int) : Int :=
  Int.fdiv a b

/-- PIL round_aspect (inside Image.thumbnail): picks floor(q) or ceil(q),
whichever the key ranks lower (Python min takes the first argument on a
tie, hence floor), then clamps the result to at least 1. -/
def roundAspect (q : ℚ) (key : Int → ℚ) : Int :=
  max (if key ⌊q⌋ ≤ key ⌈q⌉ then ⌊q⌋ else ⌈q⌉) 1

/-- The size computation of PIL Image.thumbnail on a w×h image with
requested bounding size (sx, sy).  Returns none where CPython raises:
a ZeroDivisionError from aspect = width/height (zero-height image) or
from the comparison x / y (sy = 0 and no early return), and a ValueError
from resize on a nonpositive target dimension. -/
def thumbnailSize (w h : Nat) (sx sy : Int) : Option (Nat × Nat) :=
  if (w : Int) ≤ sx ∧ (h : Int) ≤ sy then
    some (w, h)
  else if h = 0 then
    none
  else if sy = 0 then
    none
  else
    let aspect : ℚ := (w : ℚ) / (h : ℚ)
    if aspect ≤ (sx : ℚ) / (sy : ℚ) then
      let nx := roundAspect ((sy : ℚ) * aspect) (fun n => |aspect - (n : ℚ) / (sy : ℚ)|)
      if sy ≤ 0 then none else some (nx.toNat, sy.toNat)
    else
      let ny := roundAspect ((sx : ℚ) / aspect)
        (fun n => if n = 0 then 0 else |aspect - (sx : ℚ) / (n : ℚ)|)
      if sx ≤ 0 then none else some (sx.toNat, ny.toNat)

/-- Resize to the given dimensions.  The LANCZOS resampling of the source
is abstracted to a coordinate rescale: all claims under verification
depend only on the resulting dimensions. -/
def Image.resize (img : Image) (nw nh : Nat) : Image :=
  ⟨nw, nh, fun i j => img.pix (i * img.width / max nw 1) (j * img.height / max nh 1)⟩

/-- PIL Image.thumbnail: computes the downscaled size, then resizes in
place when the size changed.  none models the exceptions of
thumbnailSize. -/
def Image.thumbnail (img : Image) (sx sy : Int) : Option Image :=
  (thumbnailSize img.width img.height sx sy).map fun nwh =>
    if nwh.1 = img.width ∧ nwh.2 = img.height then img else img.resize nwh.1 nwh.2

/-- Alpha blend of one source pixel over one base pixel, as performed by
PIL paste with an RGBA mask (the mask alpha weighs the source). -/
def blendPixel (base src : Pixel) : Pixel :=
  ⟨(base.r * (255 - src.a) + src.r * src.a) / 255,
   (base.g * (255 - src.a) + src.g * src.a) / 255,
   (base.b * (255 - src.a) + src.b * src.a) / 255,
   (base.a * (255 - src.a) + src.a * src.a) / 255⟩

/-- PIL Image.paste(over, (px, py), over): pastes over onto img with the
pasted image as its own mask.  The canvas keeps the dimensions of img;
regions falling outside the canvas are cropped. -/
def Image.paste (img over : Image) (px py : Int) : Image :=
  ⟨img.width, img.height, fun x y =>
    if px ≤ (x : Int) ∧ (x : Int) < px + over.width ∧
       py ≤ (y : Int) ∧ (y : Int) < py + over.height then
      blendPixel (img.pix x y) (over.pix ((x : Int) - px).toNat ((y : Int) - py).toNat)
    else
      img.pix x y⟩

/-- PIL Image.new of a solid color (converted to RGBA). -/
def Image.new (w h : Nat) (c : Pixel) : Image :=
  ⟨w, h, fun _ _ => c⟩

/-- The opaque white backing-plate color hardcoded at line 56. -/
def plateWhite : Pixel :=
  ⟨255, 255, 255, 255⟩

/-- Error kinds (spec section 7 taxonomy; in CPython these surface as
ValueError, FileNotFoundError/UnidentifiedImageError and
ZeroDivisionError respectively). -/
inductive GenError where
  | ConfigurationError
  | ResourceLoadError
  | ZeroDivisionError
deriving DecidableEq

/-- Parameters handed to the external encoder (qrcode library). -/
structure EncoderParams where
  link : String
  version : Int
  fill_color : String
  back_color : String
  box_size : Int
  border : Int
deriving DecidableEq

/-- The external Encoder Adapter, abstracted as a deterministic function
from parameters to the Symbol Image (spec section 4.1; the module-matrix
computation is out of scope per spec section 1). -/
def EncodeFn : Type :=
  EncoderParams → Image

/-- The filesystem visible to one invocation: what Image.open returns at
each path (none: missing, unreadable or not a valid image). -/
structure FS where
  read : String → Option Image

/-- Writing an image file at a path. -/
def FS.write (fs : FS) (path : String) (img : Image) : FS :=
  ⟨fun p => if p = path then some img else fs.read p⟩

/-- The arguments of generate_qr_code_for_link. -/
structure GenInput where
  link : String
  filename : String
  version : Int
  fill_color : String
  back_color : String
  box_size : Int
  border : Int
  logo_path : Option String
  logo_size : ℚ

/-- Line 47: logo_max_size = int(min(qr_width, qr_height) * logo_size). -/
def logoMaxSize (qw qh : Nat) (logo_size : ℚ) : Int :=
  pyInt (((min qw qh : Nat) : ℚ) * logo_size)

/-- Lines 57-58: a backing-plate dimension
((int(1.05 * d) // box_size) + 1) * box_size, for box_size > 0
(guaranteed by the constructor validation at line 33). -/
def bboxDim (d b : Nat) : Nat :=
  ((pyInt ((1.05 : ℚ) * (d : ℚ))).toNat / b + 1) * b

/-- Lines 50-51 and 59: centering offset (s - d) // 2 per axis. -/
def centerOffset (s d : Nat) : Int :=
  pyFloorDiv ((s : Int) - (d : Int)) 2

/-- The Symbol Image of an invocation: lines 33-41, the encoder applied
to the request parameters. -/
def symbolImage (enc : EncodeFn) (inp : GenInput) : Image :=
  enc ⟨inp.link, inp.version, inp.fill_color, inp.back_color, inp.box_size, inp.border⟩

/-- Shallow embedding of generate_qr_code_for_link (lines 8-67).
Validation mirrors qrcode.QRCode.__init__ (line 33): _check_box_size
(int(size) <= 0 raises), _check_border (int(v) < 0 raises), and the
version setter (outside 1..40 raises); the spec files all three under
ConfigurationError.  On success the pair is the filesystem after the
save at line 66 together with the written Output Image. -/
def generate_qr_code_for_link (enc : EncodeFn) (inp : GenInput) (fs : FS) :
    Except GenError (FS × Image) :=
  if inp.box_size ≤ 0 then
    .error .ConfigurationError
  else if inp.border < 0 then
    .error .ConfigurationError
  else if inp.version < 1 ∨ 40 < inp.version then
    .error .ConfigurationError
  else
    let img := symbolImage enc inp
    match inp.logo_path with
    | none => .ok (fs.write inp.filename img, img)
    | some path =>
      match fs.read path with
      | none => .error .ResourceLoadError
      | some logo0 =>
        let qr_width := img.width
        let qr_height := img.height
        let m := logoMaxSize qr_width qr_height inp.logo_size
        match logo0.thumbnail m m with
        | none => .error .ZeroDivisionError
        | some logo =>
          let logo_width := logo.width
          let logo_height := logo.height
          let x_center := centerOffset qr_width logo_width
          let y_center := centerOffset qr_height logo_height
          let b := inp.box_size.toNat
          let bbox_width := bboxDim logo_width b
          let bbox_height := bboxDim logo_height b
          let bbox_x := centerOffset qr_width bbox_width
          let bbox_y := centerOffset qr_height bbox_height
          let bbox := Image.new bbox_width bbox_height plateWhite
          let img1 := img.paste bbox bbox_x bbox_y
          let img2 := img1.paste logo x_center y_center
          .ok (fs.write inp.filename img2, img2)

/-- Projection of an invocation result to the Output Image it persists
(none when the invocation raised and nothing was written). -/
def outputImage : Except GenError (FS × Image) → Option Image
  | .ok (_, img) => some img
  | .error _ => none

/-! ## Concrete sample data for witnesses -/

/-- The payload of the spec's worked scenario. -/
def linkSample : String := "https://example.com"

/-- The default output filename. -/
def fileSample : String := "qrcode.png"

/-- The default fill color name. -/
def blackName : String := "black"

/-- The default background color name. -/
def whiteName : String := "white"

/-- A logo path. -/
def logoPathSample : String := "logo.png"

/-- The 500×200 logo of the spec's worked scenario. -/
def logoSample : Image := ⟨500, 200, fun _ _ => ⟨10, 20, 30, 255⟩⟩

/-- A sample encoder producing the 750×750 Symbol Image of the spec's
worked scenario (version 4, box_size 25, border 2: (25+2*2)*25 = 725...
the spec's scenario states 750×750, i.e. a 30-module row; the encoder is
abstract, so any fixed raster serves as a witness). -/
def encSample : EncodeFn := fun _ => Image.new 750 750 plateWhite

/-- A filesystem with no readable images. -/
def fsEmpty : FS := ⟨fun _ => none⟩

/-- A filesystem holding the sample logo. -/
def fsSample : FS := ⟨fun p => if p = logoPathSample then some logoSample else none⟩

/-- A second filesystem that also holds the sample logo but differs from
fsSample on every other path. -/
def fsSample2 : FS :=
  ⟨fun p => if p = logoPathSample then some logoSample else some (Image.new 1 1 plateWhite)⟩

/-- The worked-scenario arguments: box_size 25, logo present, logo_size 0.25. -/
def inpSample : GenInput :=
  ⟨linkSample, fileSample, 4, blackName, whiteName, 25, 2, some logoPathSample, 0.25⟩

/-- The same arguments without a logo. -/
def inpNoLogo : GenInput :=
  ⟨linkSample, fileSample, 4, blackName, whiteName, 25, 2, none, 0.25⟩

/-- The same arguments with box_size 0 (invalid). -/
def inpZeroBox : GenInput :=
  ⟨linkSample, fileSample, 4, blackName, whiteName, 0, 2, some logoPathSample, 0.25⟩

/-- The same arguments with a degenerate logo_size of 0.0001 (computed
logo cap collapses to 0 on a 750×750 symbol). -/
def inpTinyLogo : GenInput :=
  ⟨linkSample, fileSample, 4, blackName, whiteName, 25, 2, some logoPathSample, 0.0001⟩

/-- The same arguments with logo_size 0.002: the computed cap on a 750×750
symbol is floor(1.5) = 1, a near-zero but positive cap. -/
def inpCapOne : GenInput :=
  ⟨linkSample, fileSample, 4, blackName, whiteName, 25, 2, some logoPathSample, 0.002⟩

/-! ## Helper lemmas -/

lemma one_le_roundAspect (q : ℚ) (key : Int → ℚ) : 1 ≤ roundAspect q key :=
  le_max_right _ _

lemma roundAspect_le_of_le (q : ℚ) (key : Int → ℚ) (B : Int) (hB : 1 ≤ B)
    (hqB : q ≤ (B : ℚ)) : roundAspect q key ≤ B := by
  unfold roundAspect
  have hf : ⌊q⌋ ≤ B := by
    have := Int.floor_le_floor hqB
    rwa [Int.floor_intCast] at this
  have hc : ⌈q⌉ ≤ B := Int.ceil_le.mpr hqB
  have hsel : (if key ⌊q⌋ ≤ key ⌈q⌉ then ⌊q⌋ else ⌈q⌉) ≤ B := by
    split_ifs with hk
    · exact hf
    · exact hc
  exact max_le hsel hB

lemma roundAspect_close (q : ℚ) (key : Int → ℚ) (hq : 0 < q) :
    |(roundAspect q key : ℚ) - q| < 1 := by
  unfold roundAspect
  have hfl := Int.floor_le q
  have hfl1 := Int.lt_floor_add_one q
  have hcl := Int.le_ceil q
  have hcl1 := Int.ceil_lt_add_one q
  rcases le_or_lt 1 q with h1 | h1
  · have hf1 : (1 : Int) ≤ ⌊q⌋ := by
      rw [Int.le_floor]
      exact_mod_cast h1
    have hsel : (1 : Int) ≤ (if key ⌊q⌋ ≤ key ⌈q⌉ then ⌊q⌋ else ⌈q⌉) := by
      split_ifs with hk
      · exact hf1
      · exact le_trans hf1 (Int.floor_le_ceil q)
    rw [max_eq_left hsel]
    split_ifs with hk
    · rw [abs_sub_lt_iff]
      constructor <;> linarith
    · rw [abs_sub_lt_iff]
      constructor <;> linarith
  · have hcle : ⌈q⌉ ≤ 1 := Int.ceil_le.mpr (by push_cast; linarith)
    have hsel : (if key ⌊q⌋ ≤ key ⌈q⌉ then ⌊q⌋ else ⌈q⌉) ≤ 1 := by
      split_ifs with hk
      · exact le_trans (Int.floor_le_ceil q) hcle
      · exact hcle
    rw [max_eq_right hsel]
    rw [abs_sub_lt_iff]
    constructor <;> [skip; skip] <;> push_cast <;> linarith

/-! ## Claims C3 and C4 -/

/-- C3: for every downscaled logo dimension d and every positive box_size b,
the Backing Plate dimension bboxDim d b is an exact integer multiple of b and
is at least 1.05 times d (the plate covers the logo plus a 5% margin, rounded
up to the module grid). -/
theorem claim_C3_backing_plate (d b : Nat) (hb : 1 ≤ b) :
    b ∣ bboxDim d b ∧ (1.05 : ℚ) * (d : ℚ) ≤ ((bboxDim d b : Nat) : ℚ) := by
  constructor
  · exact dvd_mul_left b _
  · unfold bboxDim pyInt
    have h0 : (0 : ℚ) ≤ (1.05 : ℚ) * (d : ℚ) := by positivity
    rw [if_pos h0]
    set t : Nat := (⌊(1.05 : ℚ) * (d : ℚ)⌋).toNat with ht
    have hfl0 : (0 : Int) ≤ ⌊(1.05 : ℚ) * (d : ℚ)⌋ := Int.floor_nonneg.mpr h0
    have htZ : (t : Int) = ⌊(1.05 : ℚ) * (d : ℚ)⌋ := Int.toNat_of_nonneg hfl0
    have hlt : (1.05 : ℚ) * (d : ℚ) < (t : ℚ) + 1 := by
      have := Int.lt_floor_add_one ((1.05 : ℚ) * (d : ℚ))
      have hcast : ((⌊(1.05 : ℚ) * (d : ℚ)⌋ : Int) : ℚ) = (t : ℚ) := by
        exact_mod_cast congrArg (fun z : Int => (z : ℚ)) htZ.symm
      rwa [hcast] at this
    have hnat : t + 1 ≤ (t / b + 1) * b := by
      have hdm := Nat.div_add_mod t b
      have hmod : t % b < b := Nat.mod_lt t (by omega)
      have hexp : (t / b + 1) * b = b * (t / b) + b := by ring
      omega
    have hle : ((t : ℚ) + 1) ≤ (((t / b + 1) * b : Nat) : ℚ) := by exact_mod_cast hnat
    linarith

/-- C4: for symbol dimension S and pasted dimension D with D ≤ S, the
centering offset computed by the code equals (S - D) // 2 (integer floor
division) and differs from the true geometric center (S - D) / 2 by
strictly less than one pixel. -/
theorem claim_C4_centering (S D : Nat) (hDS : D ≤ S) :
    centerOffset S D = (((S - D) / 2 : Nat) : Int) ∧
    |(centerOffset S D : ℚ) - ((S : ℚ) - (D : ℚ)) / 2| < 1 := by
  have hsub : ((S - D : Nat) : Int) = (S : Int) - (D : Int) := by
    push_cast [hDS]
    ring
  have heq : centerOffset S D = (((S - D) / 2 : Nat) : Int) := by
    unfold centerOffset pyFloorDiv
    rw [← hsub, Int.fdiv_eq_ediv _ (by norm_num)]
    exact (Int.ofNat_ediv _ _).symm
  refine ⟨heq, ?_⟩
  have hsubQ : ((S : ℚ) - (D : ℚ)) = ((S - D : Nat) : ℚ) := by
    push_cast [hDS]
    ring
  rw [heq, hsubQ]
  obtain ⟨k, hk | hk⟩ := Nat.even_or_odd' (S - D)
  · rw [hk]
    have h2 : (2 * k) / 2 = k := by omega
    rw [h2]
    push_cast
    rw [mul_comm]
    simp [mul_div_assoc]
  · rw [hk]
    have h2 : (2 * k + 1) / 2 = k := by omega
    rw [h2]
    push_cast
    rw [abs_sub_lt_iff]
    constructor <;> linarith

/-- C4 witness at S = 750, D = 75: offset 337, within one pixel of 337.5. -/
theorem claim_C4_centering_witness :
    (75 ≤ 750) ∧
    (centerOffset 750 75 = (((750 - 75) / 2 : Nat) : Int) ∧
     |(centerOffset 750 75 : ℚ) - ((750 : ℚ) - (75 : ℚ)) / 2| < 1) :=
  ⟨by norm_num, claim_C4_centering 750 75 (by norm_num)⟩

/-- C3 witness at d = 187, b = 25 (the plate is 200 ≥ 1.05 * 187). -/
theorem claim_C3_backing_plate_witness :
    (1 ≤ 25) ∧
    (25 ∣ bboxDim 187 25 ∧ (1.05 : ℚ) * (187 : ℚ) ≤ ((bboxDim 187 25 : Nat) : ℚ)) :=
  ⟨by norm_num, claim_C3_backing_plate 187 25 (by norm_num)⟩

/-! ## The thumbnail size characterization (claim C2) -/

lemma thumbnailSize_eq_some (w h : Nat) (m : Int) (hw : 1 ≤ w) (hh : 1 ≤ h)
    (w2 h2 : Nat) (hres : thumbnailSize w h m m = some (w2, h2)) :
    (w2 : Int) ≤ m ∧ (h2 : Int) ≤ m ∧ w2 ≤ w ∧ h2 ≤ h ∧
    (((w : Int) ≤ m ∧ (h : Int) ≤ m) → w2 = w ∧ h2 = h) ∧
    |(w2 : ℚ) * (h : ℚ) - (h2 : ℚ) * (w : ℚ)| < ((max w h : Nat) : ℚ) := by
  have hQw : (1 : ℚ) ≤ (w : ℚ) := by exact_mod_cast hw
  have hQh : (0 : ℚ) < (h : ℚ) := by exact_mod_cast Nat.lt_of_lt_of_le Nat.zero_lt_one hh
  simp only [thumbnailSize] at hres
  by_cases hearly : (w : Int) ≤ m ∧ (h : Int) ≤ m
  · -- early return: the logo already fits, unchanged
    rw [if_pos hearly, Option.some_inj, Prod.mk.injEq] at hres
    obtain ⟨e1, e2⟩ := hres
    subst e1
    subst e2
    refine ⟨hearly.1, hearly.2, le_refl _, le_refl _, fun _ => ⟨rfl, rfl⟩, ?_⟩
    have hz : (w : ℚ) * (h : ℚ) - (h : ℚ) * (w : ℚ) = 0 := by ring
    rw [hz, abs_zero]
    have h1m : (1 : ℚ) ≤ ((max w h : Nat) : ℚ) := by
      exact_mod_cast le_trans hw (le_max_left w h)
    linarith
  · rw [if_neg hearly] at hres
    by_cases hh0 : h = 0
    · omega
    · rw [if_neg hh0] at hres
      by_cases hm00 : m = 0
      · rw [if_pos hm00] at hres
        exact Option.noConfusion hres
      · rw [if_neg hm00] at hres
        by_cases hcase : (w : ℚ) / (h : ℚ) ≤ (m : ℚ) / (m : ℚ)
        · rw [if_pos hcase] at hres
          by_cases hneg : m ≤ 0
          · rw [if_pos hneg] at hres
            exact Option.noConfusion hres
          · rw [if_neg hneg] at hres
            -- tall case: width is adjusted, height becomes m
            have hm1 : (1 : Int) ≤ m := by omega
            have hmQ1 : (1 : ℚ) ≤ (m : ℚ) := by exact_mod_cast hm1
            have hmQ0 : (m : ℚ) ≠ 0 := by
              have : (0 : ℚ) < (m : ℚ) := by linarith
              exact ne_of_gt this
            rw [div_self hmQ0] at hcase
            have hwhQ : (w : ℚ) ≤ (h : ℚ) := (div_le_one hQh).mp hcase
            have hwh : w ≤ h := by exact_mod_cast hwhQ
            have hml : m < (h : Int) := by
              by_contra hcon
              push_neg at hcon
              exact hearly ⟨le_trans (by exact_mod_cast hwh) hcon, hcon⟩
            have hmhQ : (m : ℚ) ≤ (h : ℚ) := by exact_mod_cast le_of_lt hml
            injection hres with hpair
            injection hpair with hA hB
            subst hA
            subst hB
            set e : ℚ := (m : ℚ) * ((w : ℚ) / (h : ℚ)) with he
            set key : Int → ℚ := fun n => |(w : ℚ) / (h : ℚ) - (n : ℚ) / (m : ℚ)| with hkeydef
            have he_le_m : e ≤ (m : ℚ) := by
              calc e ≤ (m : ℚ) * 1 := by
                    apply mul_le_mul_of_nonneg_left hcase
                    linarith
                _ = (m : ℚ) := mul_one _
            have hwdivh : (h : ℚ) * ((w : ℚ) / (h : ℚ)) = (w : ℚ) := by
              field_simp
            have he_le_w : e ≤ (w : ℚ) := by
              calc e ≤ (h : ℚ) * ((w : ℚ) / (h : ℚ)) := by
                    apply mul_le_mul_of_nonneg_right hmhQ
                    positivity
                _ = (w : ℚ) := hwdivh
            have hepos : 0 < e := by
              apply mul_pos (by linarith)
              apply div_pos (by linarith) hQh
            have hr1 : 1 ≤ roundAspect e key := one_le_roundAspect e key
            have hrm : roundAspect e key ≤ m := roundAspect_le_of_le e key m hm1 he_le_m
            have hrw : roundAspect e key ≤ (w : Int) :=
              roundAspect_le_of_le e key w (by exact_mod_cast hw) he_le_w
            have hclose := roundAspect_close e key hepos
            have hrtoNat : (((roundAspect e key).toNat : Nat) : Int) = roundAspect e key :=
              Int.toNat_of_nonneg (by omega)
            have hmtoNat : ((m.toNat : Nat) : Int) = m := Int.toNat_of_nonneg (by omega)
            refine ⟨by omega, by omega, by omega, by omega, fun hp => absurd hp hearly, ?_⟩
            have hAq : (((roundAspect e key).toNat : Nat) : ℚ) =
                ((roundAspect e key : Int) : ℚ) := by
              rw [← hrtoNat]
              exact (Int.cast_natCast _).symm
            have hBq : ((m.toNat : Nat) : ℚ) = ((m : Int) : ℚ) := by
              rw [← hmtoNat]
              exact (Int.cast_natCast _).symm
            rw [hAq, hBq]
            have hemul : e * (h : ℚ) = ((m : Int) : ℚ) * (w : ℚ) := by
              rw [he]
              field_simp
            have hkey2 : ((roundAspect e key : Int) : ℚ) * (h : ℚ) -
                ((m : Int) : ℚ) * (w : ℚ) =
                (((roundAspect e key : Int) : ℚ) - e) * (h : ℚ) := by
              rw [sub_mul, hemul]
            rw [hkey2, abs_mul, abs_of_pos hQh]
            have hlt : |((roundAspect e key : Int) : ℚ) - e| * (h : ℚ) < 1 * (h : ℚ) :=
              mul_lt_mul_of_pos_right hclose hQh
            have hmax : (h : ℚ) ≤ ((max w h : Nat) : ℚ) := by
              exact_mod_cast le_max_right w h
            linarith
        · rw [if_neg hcase] at hres
          by_cases hneg : m ≤ 0
          · rw [if_pos hneg] at hres
            exact Option.noConfusion hres
          · rw [if_neg hneg] at hres
            -- wide case: height is adjusted, width becomes m
            have hm1 : (1 : Int) ≤ m := by omega
            have hmQ1 : (1 : ℚ) ≤ (m : ℚ) := by exact_mod_cast hm1
            have hmQ0 : (m : ℚ) ≠ 0 := by
              have : (0 : ℚ) < (m : ℚ) := by linarith
              exact ne_of_gt this
            rw [div_self hmQ0] at hcase
            push_neg at hcase
            have hhwQ : (h : ℚ) < (w : ℚ) := (one_lt_div hQh).mp hcase
            have hhw : h < w := by exact_mod_cast hhwQ
            have hml : m < (w : Int) := by
              by_contra hcon
              push_neg at hcon
              refine hearly ⟨hcon, ?_⟩
              have hwi : (h : Int) ≤ (w : Int) := by exact_mod_cast le_of_lt hhw
              omega
            have hmwQ : (m : ℚ) ≤ (w : ℚ) := by exact_mod_cast le_of_lt hml
            injection hres with hpair
            injection hpair with hA hB
            subst hA
            subst hB
            set e : ℚ := (m : ℚ) / ((w : ℚ) / (h : ℚ)) with he
            set key : Int → ℚ :=
              fun n => if n = 0 then 0 else |(w : ℚ) / (h : ℚ) - (m : ℚ) / (n : ℚ)| with hkeydef
            have haspect1 : (1 : ℚ) ≤ (w : ℚ) / (h : ℚ) := le_of_lt hcase
            have he_le_m : e ≤ (m : ℚ) := div_le_self (by linarith) haspect1
            have he_eq : e = (m : ℚ) * (h : ℚ) / (w : ℚ) := by
              rw [he, div_div_eq_mul_div]
            have he_le_h : e ≤ (h : ℚ) := by
              rw [he_eq, div_le_iff₀ (by linarith)]
              nlinarith
            have hepos : 0 < e := by
              apply div_pos (by linarith)
              apply div_pos (by linarith) hQh
            have hr1 : 1 ≤ roundAspect e key := one_le_roundAspect e key
            have hrm : roundAspect e key ≤ m := roundAspect_le_of_le e key m hm1 he_le_m
            have hrh : roundAspect e key ≤ (h : Int) :=
              roundAspect_le_of_le e key h (by exact_mod_cast hh) he_le_h
            have hclose := roundAspect_close e key hepos
            have hrtoNat : (((roundAspect e key).toNat : Nat) : Int) = roundAspect e key :=
              Int.toNat_of_nonneg (by omega)
            have hmtoNat : ((m.toNat : Nat) : Int) = m := Int.toNat_of_nonneg (by omega)
            refine ⟨by omega, by omega, by omega, by omega, fun hp => absurd hp hearly, ?_⟩
            have hAq : ((m.toNat : Nat) : ℚ) = ((m : Int) : ℚ) := by
              rw [← hmtoNat]
              exact (Int.cast_natCast _).symm
            have hBq : (((roundAspect e key).toNat : Nat) : ℚ) =
                ((roundAspect e key : Int) : ℚ) := by
              rw [← hrtoNat]
              exact (Int.cast_natCast _).symm
            rw [hAq, hBq]
            have hQw0 : (0 : ℚ) < (w : ℚ) := by linarith
            have hemul : e * (w : ℚ) = ((m : Int) : ℚ) * (h : ℚ) := by
              rw [he_eq]
              field_simp
            have hkey2 : ((m : Int) : ℚ) * (h : ℚ) -
                ((roundAspect e key : Int) : ℚ) * (w : ℚ) =
                -((((roundAspect e key : Int) : ℚ) - e) * (w : ℚ)) := by
              rw [sub_mul, hemul]
              ring
            rw [hkey2, abs_neg, abs_mul, abs_of_pos hQw0]
            have hlt : |((roundAspect e key : Int) : ℚ) - e| * (w : ℚ) < 1 * (w : ℚ) :=
              mul_lt_mul_of_pos_right hclose hQw0
            have hmax : (w : ℚ) ≤ ((max w h : Nat) : ℚ) := by
              exact_mod_cast le_max_left w h
            linarith

/-- C2: for every logo and symbol image, a successful downscaling step
(logo.thumbnail with both bounds set to logo_max_size, line 48) yields a
logo whose edges are each at most the cap floor(min(symbol_w, symbol_h) *
logo_size_fraction), never exceeds the original dimensions (no upscale),
is unchanged when the original already fits within the cap, and preserves
the aspect ratio up to the documented rounding (cross products differ by
less than the longer original edge, i.e. the adjusted edge is within one
pixel of exact proportionality). -/
theorem claim_C2_downscale (logo : Image) (sw sh : Nat) (q : ℚ) (hq : 0 ≤ q)
    (hw : 1 ≤ logo.width) (hh : 1 ≤ logo.height) (out : Image)
    (hres : logo.thumbnail (logoMaxSize sw sh q) (logoMaxSize sw sh q) = some out) :
    logoMaxSize sw sh q = ⌊((min sw sh : Nat) : ℚ) * q⌋ ∧
    (out.width : Int) ≤ logoMaxSize sw sh q ∧
    (out.height : Int) ≤ logoMaxSize sw sh q ∧
    out.width ≤ logo.width ∧ out.height ≤ logo.height ∧
    (((logo.width : Int) ≤ logoMaxSize sw sh q ∧
      (logo.height : Int) ≤ logoMaxSize sw sh q) → out = logo) ∧
    |(out.width : ℚ) * (logo.height : ℚ) - (out.height : ℚ) * (logo.width : ℚ)| <
      ((max logo.width logo.height : Nat) : ℚ) := by
  have hfloor : logoMaxSize sw sh q = ⌊((min sw sh : Nat) : ℚ) * q⌋ := by
    unfold logoMaxSize pyInt
    rw [if_pos (by positivity)]
  rw [Image.thumbnail, Option.map_eq_some'] at hres
  obtain ⟨⟨nw, nh⟩, hts, hout⟩ := hres
  obtain ⟨c1, c2, c3, c4, c5, c6⟩ :=
    thumbnailSize_eq_some logo.width logo.height (logoMaxSize sw sh q) hw hh nw nh hts
  by_cases hsame : nw = logo.width ∧ nh = logo.height
  · rw [if_pos hsame] at hout
    subst hout
    refine ⟨hfloor, ?_, ?_, le_refl _, le_refl _, fun _ => rfl, ?_⟩
    · rw [← hsame.1]
      exact c1
    · rw [← hsame.2]
      exact c2
    · have hz : (logo.width : ℚ) * (logo.height : ℚ) -
          (logo.height : ℚ) * (logo.width : ℚ) = 0 := by
        ring
      rw [hz, abs_zero]
      have h1m : (1 : ℚ) ≤ ((max logo.width logo.height : Nat) : ℚ) := by
        exact_mod_cast le_trans hw (le_max_left logo.width logo.height)
      linarith
  · rw [if_neg hsame] at hout
    subst hout
    exact ⟨hfloor, c1, c2, c3, c4, fun hp => absurd (c5 hp) hsame, c6⟩

/-! ## Concrete evaluations shared by the scenario claims -/

lemma thumbnailSize_500_200_187 : thumbnailSize 500 200 187 187 = some (187, 75) := by
  have hc : (⌈(374 / 5 : ℚ)⌉ : Int) = 75 := by
    rw [Int.ceil_eq_iff]
    norm_num
  norm_num [thumbnailSize, roundAspect, hc, abs_of_nonneg]
  omega

lemma logoMaxSize_750_quarter : logoMaxSize 750 750 (0.25 : ℚ) = 187 := by
  norm_num [logoMaxSize, pyInt]

lemma bboxDim_187_25 : bboxDim 187 25 = 200 := by
  norm_num [bboxDim, pyInt]
  omega

lemma bboxDim_75_25 : bboxDim 75 25 = 100 := by
  norm_num [bboxDim, pyInt]
  omega

lemma thumbnail_sample :
    Image.thumbnail logoSample 187 187 = some (logoSample.resize 187 75) := by
  have hw : logoSample.width = 500 := rfl
  have hh : logoSample.height = 200 := rfl
  rw [Image.thumbnail, hw, hh, thumbnailSize_500_200_187]
  rw [Option.map_some']
  rw [if_neg (by norm_num [hw, hh])]

/-- C8: in the spec's worked scenario (500×200 logo, logo_size 0.25,
box_size 25, 750×750 symbol) the computed cap is 187, the logo is
downscaled to 187×75, and the backing plate is 200×100. -/
theorem claim_C8_scenario :
    logoMaxSize 750 750 (0.25 : ℚ) = 187 ∧
    thumbnailSize 500 200 187 187 = some (187, 75) ∧
    bboxDim 187 25 = 200 ∧ bboxDim 75 25 = 100 :=
  ⟨logoMaxSize_750_quarter, thumbnailSize_500_200_187, bboxDim_187_25, bboxDim_75_25⟩

/-- C2 witness: the 500×200 sample logo against a 750×750 symbol at
fraction 0.25 downscales to 187×75, within all the bounds. -/
theorem claim_C2_downscale_witness :
    ((0 : ℚ) ≤ 0.25 ∧ 1 ≤ logoSample.width ∧ 1 ≤ logoSample.height ∧
     logoSample.thumbnail (logoMaxSize 750 750 (0.25 : ℚ)) (logoMaxSize 750 750 (0.25 : ℚ)) =
       some (logoSample.resize 187 75)) ∧
    (logoMaxSize 750 750 (0.25 : ℚ) = ⌊((min 750 750 : Nat) : ℚ) * (0.25 : ℚ)⌋ ∧
     ((logoSample.resize 187 75).width : Int) ≤ logoMaxSize 750 750 (0.25 : ℚ) ∧
     ((logoSample.resize 187 75).height : Int) ≤ logoMaxSize 750 750 (0.25 : ℚ) ∧
     (logoSample.resize 187 75).width ≤ logoSample.width ∧
     (logoSample.resize 187 75).height ≤ logoSample.height ∧
     (((logoSample.width : Int) ≤ logoMaxSize 750 750 (0.25 : ℚ) ∧
       (logoSample.height : Int) ≤ logoMaxSize 750 750 (0.25 : ℚ)) →
       logoSample.resize 187 75 = logoSample) ∧
     |((logoSample.resize 187 75).width : ℚ) * (logoSample.height : ℚ) -
       ((logoSample.resize 187 75).height : ℚ) * (logoSample.width : ℚ)| <
       ((max logoSample.width logoSample.height : Nat) : ℚ)) :=
  ⟨⟨by norm_num, by norm_num [logoSample], by norm_num [logoSample],
    by rw [logoMaxSize_750_quarter]; exact thumbnail_sample⟩,
   claim_C2_downscale logoSample 750 750 (0.25 : ℚ) (by norm_num)
     (by norm_num [logoSample]) (by norm_num [logoSample]) (logoSample.resize 187 75)
     (by rw [logoMaxSize_750_quarter]; exact thumbnail_sample)⟩

/-! ## Pipeline lemmas -/

lemma generate_no_logo_eq (enc : EncodeFn) (inp : GenInput) (fs : FS)
    (hbox : ¬(inp.box_size ≤ 0)) (hborder : ¬(inp.border < 0))
    (hver : ¬(inp.version < 1 ∨ 40 < inp.version)) (hlogo : inp.logo_path = none) :
    generate_qr_code_for_link enc inp fs =
      .ok (fs.write inp.filename (symbolImage enc inp), symbolImage enc inp) := by
  simp only [generate_qr_code_for_link, hlogo]
  rw [if_neg hbox, if_neg hborder, if_neg hver]

/-- C1: for every valid input with logo_path absent, the operation writes
exactly the Symbol Image: the compose step performs no paste or other
mutation before the save at line 66. -/
theorem claim_C1_no_logo_identity (enc : EncodeFn) (inp : GenInput) (fs : FS)
    (hbox : 1 ≤ inp.box_size) (hborder : 0 ≤ inp.border)
    (hver1 : 1 ≤ inp.version) (hver2 : inp.version ≤ 40)
    (hlogo : inp.logo_path = none) :
    generate_qr_code_for_link enc inp fs =
      .ok (fs.write inp.filename (symbolImage enc inp), symbolImage enc inp) :=
  generate_no_logo_eq enc inp fs (by omega) (by omega) (by omega) hlogo

/-- C1 witness: the no-logo sample invocation returns the symbol image
untouched. -/
theorem claim_C1_no_logo_identity_witness :
    ((1 : Int) ≤ inpNoLogo.box_size ∧ (0 : Int) ≤ inpNoLogo.border ∧
     (1 : Int) ≤ inpNoLogo.version ∧ inpNoLogo.version ≤ 40 ∧
     inpNoLogo.logo_path = none) ∧
    generate_qr_code_for_link encSample inpNoLogo fsEmpty =
      .ok (fsEmpty.write inpNoLogo.filename (symbolImage encSample inpNoLogo),
        symbolImage encSample inpNoLogo) :=
  ⟨⟨by norm_num [inpNoLogo], by norm_num [inpNoLogo], by norm_num [inpNoLogo],
    by norm_num [inpNoLogo], rfl⟩,
   claim_C1_no_logo_identity encSample inpNoLogo fsEmpty (by norm_num [inpNoLogo])
     (by norm_num [inpNoLogo]) (by norm_num [inpNoLogo]) (by norm_num [inpNoLogo]) rfl⟩

/-- C5: any input with box_size ≤ 0 fails with ConfigurationError at the
constructor validation (line 33), before any compositing; the error return
carries no filesystem, modelling that no output file is written. -/
theorem claim_C5_invalid_box_size (enc : EncodeFn) (inp : GenInput) (fs : FS)
    (hbox : inp.box_size ≤ 0) :
    generate_qr_code_for_link enc inp fs = .error .ConfigurationError := by
  simp only [generate_qr_code_for_link, if_pos hbox]

/-- C5 witness: box_size 0 is rejected. -/
theorem claim_C5_invalid_box_size_witness :
    inpZeroBox.box_size ≤ 0 ∧
    generate_qr_code_for_link encSample inpZeroBox fsEmpty =
      .error .ConfigurationError :=
  ⟨by norm_num [inpZeroBox],
   claim_C5_invalid_box_size encSample inpZeroBox fsEmpty (by norm_num [inpZeroBox])⟩

/-- C6 counterexample: an input whose logo_path names a missing file but
whose box_size is 0 fails with ConfigurationError (raised at line 33,
before the logo is ever opened), not with ResourceLoadError — so the
claim's unconditional quantification over all inputs is false. -/
theorem claim_C6_counterexample :
    inpZeroBox.logo_path = some logoPathSample ∧
    fsEmpty.read logoPathSample = none ∧
    generate_qr_code_for_link encSample inpZeroBox fsEmpty ≠
      .error .ResourceLoadError := by
  refine ⟨rfl, rfl, ?_⟩
  intro hcon
  have hval : generate_qr_code_for_link encSample inpZeroBox fsEmpty =
      .error .ConfigurationError := by
    simp only [generate_qr_code_for_link]
    rw [if_pos (by norm_num [inpZeroBox])]
  rw [hval] at hcon
  simp at hcon

/-- C6 (amended): for every input passing the encoder parameter validation
whose logo_path names a missing, unreadable or invalid image, the operation
fails with ResourceLoadError and no output is written. -/
theorem claim_C6_resource_load (enc : EncodeFn) (inp : GenInput) (fs : FS)
    (hbox : 1 ≤ inp.box_size) (hborder : 0 ≤ inp.border)
    (hver1 : 1 ≤ inp.version) (hver2 : inp.version ≤ 40)
    (path : String) (hpath : inp.logo_path = some path)
    (hread : fs.read path = none) :
    generate_qr_code_for_link enc inp fs = .error .ResourceLoadError := by
  simp only [generate_qr_code_for_link, hpath, hread]
  rw [if_neg (by omega), if_neg (by omega), if_neg (by omega)]

/-- C6 witness: a valid configuration with a missing logo file fails with
ResourceLoadError. -/
theorem claim_C6_resource_load_witness :
    ((1 : Int) ≤ inpSample.box_size ∧ (0 : Int) ≤ inpSample.border ∧
     (1 : Int) ≤ inpSample.version ∧ inpSample.version ≤ 40 ∧
     inpSample.logo_path = some logoPathSample ∧
     fsEmpty.read logoPathSample = none) ∧
    generate_qr_code_for_link encSample inpSample fsEmpty =
      .error .ResourceLoadError :=
  ⟨⟨by norm_num [inpSample], by norm_num [inpSample], by norm_num [inpSample],
    by norm_num [inpSample], rfl, rfl⟩,
   claim_C6_resource_load encSample inpSample fsEmpty (by norm_num [inpSample])
     (by norm_num [inpSample]) (by norm_num [inpSample]) (by norm_num [inpSample])
     logoPathSample rfl rfl⟩

/-- C7: the operation is deterministic and stateless: the Output Image of
an invocation depends only on the arguments and on the bytes read from the
logo path, so two invocations whose filesystems agree on the logo file
produce identical output images. -/
theorem claim_C7_deterministic (enc : EncodeFn) (inp : GenInput) (fs1 fs2 : FS)
    (hagree : ∀ p, inp.logo_path = some p → fs1.read p = fs2.read p) :
    outputImage (generate_qr_code_for_link enc inp fs1) =
      outputImage (generate_qr_code_for_link enc inp fs2) := by
  simp only [generate_qr_code_for_link]
  split_ifs
  · rfl
  · rfl
  · rfl
  · rcases hlp : inp.logo_path with _ | path
    · rfl
    · simp only [hagree path hlp]
      rcases hread : fs2.read path with _ | logo
      · rfl
      · simp only [hread]
        rcases hth : Image.thumbnail logo
            (logoMaxSize (symbolImage enc inp).width (symbolImage enc inp).height
              inp.logo_size)
            (logoMaxSize (symbolImage enc inp).width (symbolImage enc inp).height
              inp.logo_size) with _ | lg
        · simp only [hth]
        · simp only [hth]
          rfl

/-- C7 witness: two filesystems holding the same logo bytes yield the same
output image. -/
theorem claim_C7_deterministic_witness :
    (∀ p, inpSample.logo_path = some p → fsSample.read p = fsSample2.read p) ∧
    outputImage (generate_qr_code_for_link encSample inpSample fsSample) =
      outputImage (generate_qr_code_for_link encSample inpSample fsSample2) :=
  ⟨fun p hp => by
    have hp2 : p = logoPathSample := by
      have : some logoPathSample = some p := hp
      exact (Option.some_inj.mp this).symm
    subst hp2
    rfl,
   claim_C7_deterministic encSample inpSample fsSample fsSample2 (fun p hp => by
    have hp2 : p = logoPathSample := by
      have : some logoPathSample = some p := hp
      exact (Option.some_inj.mp this).symm
    subst hp2
    rfl)⟩

/-! ## Claims C9 and C10 -/

lemma thumbnailSize_500_200_0 : thumbnailSize 500 200 0 0 = none := by
  norm_num [thumbnailSize]

lemma thumbnail_sample_zero : Image.thumbnail logoSample 0 0 = none := by
  have hw : logoSample.width = 500 := rfl
  have hh : logoSample.height = 200 := rfl
  rw [Image.thumbnail, hw, hh, thumbnailSize_500_200_0]
  rfl

lemma generate_thumbnail_none (enc : EncodeFn) (inp : GenInput) (fs : FS)
    (hbox : ¬(inp.box_size ≤ 0)) (hborder : ¬(inp.border < 0))
    (hver : ¬(inp.version < 1 ∨ 40 < inp.version))
    (path : String) (hpath : inp.logo_path = some path)
    (logo : Image) (hread : fs.read path = some logo)
    (hth : Image.thumbnail logo
        (logoMaxSize (symbolImage enc inp).width (symbolImage enc inp).height inp.logo_size)
        (logoMaxSize (symbolImage enc inp).width (symbolImage enc inp).height inp.logo_size) =
        none) :
    generate_qr_code_for_link enc inp fs = .error .ZeroDivisionError := by
  simp only [generate_qr_code_for_link, hpath, hread, hth]
  rw [if_neg hbox, if_neg hborder, if_neg hver]

/-- C9 counterexample: with logo_size 0.0001 on a 750×750 symbol the
computed cap is exactly 0, and the operation FAILS (the thumbnail size
computation divides by the zero bound, CPython's ZeroDivisionError),
contradicting the claim that a zero cap completes with an invisible
logo. -/
theorem claim_C9_counterexample :
    inpTinyLogo.logo_path = some logoPathSample ∧
    fsSample.read logoPathSample = some logoSample ∧
    logoMaxSize (symbolImage encSample inpTinyLogo).width
      (symbolImage encSample inpTinyLogo).height inpTinyLogo.logo_size = 0 ∧
    generate_qr_code_for_link encSample inpTinyLogo fsSample =
      .error .ZeroDivisionError := by
  have hm : logoMaxSize (symbolImage encSample inpTinyLogo).width
      (symbolImage encSample inpTinyLogo).height inpTinyLogo.logo_size = 0 := by
    show logoMaxSize 750 750 (0.0001 : ℚ) = 0
    norm_num [logoMaxSize, pyInt]
  refine ⟨rfl, by simp [fsSample], hm, ?_⟩
  refine generate_thumbnail_none encSample inpTinyLogo fsSample
    (by norm_num [inpTinyLogo]) (by norm_num [inpTinyLogo]) (by norm_num [inpTinyLogo])
    logoPathSample rfl logoSample (by simp [fsSample]) ?_
  rw [hm]
  exact thumbnail_sample_zero

lemma thumbnailSize_pos_some (w h : Nat) (m : Int) (_hw : 1 ≤ w) (hh : 1 ≤ h)
    (hm : 1 ≤ m) : ∃ p, thumbnailSize w h m m = some p := by
  simp only [thumbnailSize]
  by_cases hearly : (w : Int) ≤ m ∧ (h : Int) ≤ m
  · rw [if_pos hearly]
    exact ⟨_, rfl⟩
  · rw [if_neg hearly, if_neg (show ¬(h = 0) by omega),
      if_neg (show ¬(m = 0) by omega)]
    by_cases hcase : (w : ℚ) / (h : ℚ) ≤ (m : ℚ) / (m : ℚ)
    · rw [if_pos hcase, if_neg (show ¬(m ≤ 0) by omega)]
      exact ⟨_, rfl⟩
    · rw [if_neg hcase, if_neg (show ¬(m ≤ 0) by omega)]
      exact ⟨_, rfl⟩

/-- C9 (amended): for every valid input whose computed logo cap is at
least 1 — in particular near-zero positive caps from a degenerate
logo_size_fraction — the operation completes successfully (producing an
essentially invisible logo of at most cap pixels per edge, per C2); only
a cap of exactly 0 fails, with a division-by-zero error. -/
theorem claim_C9_degenerate_cap (enc : EncodeFn) (inp : GenInput) (fs : FS)
    (hbox : 1 ≤ inp.box_size) (hborder : 0 ≤ inp.border)
    (hver1 : 1 ≤ inp.version) (hver2 : inp.version ≤ 40)
    (path : String) (hpath : inp.logo_path = some path)
    (logo : Image) (hread : fs.read path = some logo)
    (hlw : 1 ≤ logo.width) (hlh : 1 ≤ logo.height)
    (hcap : 1 ≤ logoMaxSize (symbolImage enc inp).width (symbolImage enc inp).height
      inp.logo_size) :
    ∃ r, generate_qr_code_for_link enc inp fs = .ok r := by
  obtain ⟨nwh, hts⟩ := thumbnailSize_pos_some logo.width logo.height
    (logoMaxSize (symbolImage enc inp).width (symbolImage enc inp).height inp.logo_size)
    hlw hlh hcap
  have hth : Image.thumbnail logo
      (logoMaxSize (symbolImage enc inp).width (symbolImage enc inp).height inp.logo_size)
      (logoMaxSize (symbolImage enc inp).width (symbolImage enc inp).height inp.logo_size) =
      some (if nwh.1 = logo.width ∧ nwh.2 = logo.height then logo
        else logo.resize nwh.1 nwh.2) := by
    rw [Image.thumbnail, hts, Option.map_some']
  simp only [generate_qr_code_for_link, hpath, hread, hth]
  rw [if_neg (by omega), if_neg (by omega), if_neg (by omega)]
  exact ⟨_, rfl⟩

/-- C9 witness: logo_size 0.002 gives a computed cap of exactly 1 on the
750×750 symbol, and the invocation completes. -/
theorem claim_C9_degenerate_cap_witness :
    ((1 : Int) ≤ inpCapOne.box_size ∧ (0 : Int) ≤ inpCapOne.border ∧
     (1 : Int) ≤ inpCapOne.version ∧ inpCapOne.version ≤ 40 ∧
     inpCapOne.logo_path = some logoPathSample ∧
     fsSample.read logoPathSample = some logoSample ∧
     1 ≤ logoSample.width ∧ 1 ≤ logoSample.height ∧
     (1 : Int) ≤ logoMaxSize (symbolImage encSample inpCapOne).width
       (symbolImage encSample inpCapOne).height inpCapOne.logo_size) ∧
    ∃ r, generate_qr_code_for_link encSample inpCapOne fsSample = .ok r :=
  ⟨⟨by norm_num [inpCapOne], by norm_num [inpCapOne], by norm_num [inpCapOne],
    by norm_num [inpCapOne], rfl, by simp [fsSample], by norm_num [logoSample],
    by norm_num [logoSample],
    by
      show (1 : Int) ≤ logoMaxSize 750 750 (0.002 : ℚ)
      norm_num [logoMaxSize, pyInt]⟩,
   claim_C9_degenerate_cap encSample inpCapOne fsSample (by norm_num [inpCapOne])
     (by norm_num [inpCapOne]) (by norm_num [inpCapOne]) (by norm_num [inpCapOne])
     logoPathSample rfl logoSample (by simp [fsSample]) (by norm_num [logoSample])
     (by norm_num [logoSample])
     (by
       show (1 : Int) ≤ logoMaxSize 750 750 (0.002 : ℚ)
       norm_num [logoMaxSize, pyInt])⟩

/-- C10: whenever the operation succeeds, the Output Image has exactly the
dimensions of the Symbol Image: the plate and logo pastes never change the
canvas size. -/
theorem claim_C10_canvas_dims (enc : EncodeFn) (inp : GenInput) (fs : FS)
    (fsOut : FS) (out : Image)
    (hres : generate_qr_code_for_link enc inp fs = .ok (fsOut, out)) :
    out.width = (symbolImage enc inp).width ∧
    out.height = (symbolImage enc inp).height := by
  simp only [generate_qr_code_for_link] at hres
  split_ifs at hres
  rcases hlp : inp.logo_path with _ | path
  · simp only [hlp, Except.ok.injEq, Prod.mk.injEq] at hres
    obtain ⟨hfs, hout⟩ := hres
    subst hout
    exact ⟨rfl, rfl⟩
  · simp only [hlp] at hres
    rcases hread : fs.read path with _ | logo
    · simp only [hread] at hres
      exact Except.noConfusion hres
    · simp only [hread] at hres
      rcases hth : Image.thumbnail logo
          (logoMaxSize (symbolImage enc inp).width (symbolImage enc inp).height
            inp.logo_size)
          (logoMaxSize (symbolImage enc inp).width (symbolImage enc inp).height
            inp.logo_size) with _ | lg
      · simp only [hth] at hres
        exact Except.noConfusion hres
      · simp only [hth, Except.ok.injEq, Prod.mk.injEq] at hres
        obtain ⟨hfs, hout⟩ := hres
        subst hout
        exact ⟨rfl, rfl⟩

/-- C10 witness: the no-logo invocation succeeds and its output has the
symbol dimensions. -/
theorem claim_C10_canvas_dims_witness :
    (generate_qr_code_for_link encSample inpNoLogo fsEmpty =
      .ok (fsEmpty.write inpNoLogo.filename (symbolImage encSample inpNoLogo),
        symbolImage encSample inpNoLogo)) ∧
    ((symbolImage encSample inpNoLogo).width = (symbolImage encSample inpNoLogo).width ∧
     (symbolImage encSample inpNoLogo).height =
       (symbolImage encSample inpNoLogo).height) :=
  ⟨generate_no_logo_eq encSample inpNoLogo fsEmpty (by norm_num [inpNoLogo])
     (by norm_num [inpNoLogo]) (by norm_num [inpNoLogo]) rfl,
   claim_C10_canvas_dims encSample inpNoLogo fsEmpty _ _
     (generate_no_logo_eq encSample inpNoLogo fsEmpty (by norm_num [inpNoLogo])
       (by norm_num [inpNoLogo]) (by norm_num [inpNoLogo]) rfl)⟩
